import Mathlib

/-!
Verification development for the RoWorks asset-ingestion pipeline.

The Python sources are shallowly embedded: Python floats are modelled as
exact rationals, per-line file iteration as folds over a list of line
strings, and the cooperative single-threaded import worker as a sequential
event trace.  Each embedded definition carries a comment naming the source
function it translates.
-/

namespace RoWorks

/- ---------------------------------------------------------------------
   Models of the Python string primitives used by the sources:
   str.strip(), str.split() (whitespace), str.split(sep),
   str.startswith(p).
   --------------------------------------------------------------------- -/

/-- Characters Python's str.strip() and str.split() treat as whitespace
(ASCII subset, which is all the sources can meet in line-oriented files). -/
def isPySpace (c : Char) : Bool :=
  c == ' ' || c == '\t' || c == '\n' || c == '\r' || c == '\x0b' || c == '\x0c'

/-- Model of str.strip(): drop whitespace from both ends. -/
def stripChars (l : List Char) : List Char :=
  ((l.dropWhile isPySpace).reverse.dropWhile isPySpace).reverse

/-- Accumulator worker for whitespace splitting. -/
def wordsAux : List Char → List Char → List (List Char)
  | [], acc => if acc.isEmpty then [] else [acc.reverse]
  | c :: cs, acc =>
    if isPySpace c then
      if acc.isEmpty then wordsAux cs [] else acc.reverse :: wordsAux cs []
    else wordsAux cs (c :: acc)

/-- Model of str.split() with no separator: split on whitespace runs,
discarding empty fields. -/
def pyWords (l : List Char) : List (List Char) := wordsAux l []

/-- Accumulator worker for single-character splitting. -/
def splitOnCharAux (sep : Char) : List Char → List Char → List (List Char)
  | [], acc => [acc.reverse]
  | c :: cs, acc =>
    if c == sep then acc.reverse :: splitOnCharAux sep cs []
    else splitOnCharAux sep cs (c :: acc)

/-- Model of str.split(sep) for a one-character separator: empty fields
are kept, and the result is never the empty list. -/
def splitOnChar (sep : Char) (l : List Char) : List (List Char) :=
  splitOnCharAux sep l []

/-- Model of str.startswith for an explicit pattern list. -/
def startsWithChars : List Char → List Char → Bool
  | _, [] => true
  | [], _ :: _ => false
  | c :: cs, p :: ps => c == p && startsWithChars cs ps

/- ---------------------------------------------------------------------
   Models of Python float() and int() on the numeric-literal forms the
   line formats use (optional sign, decimal digits, optional fraction).
   A parse failure models the ValueError the builtins raise.
   --------------------------------------------------------------------- -/

/-- Value of an ASCII digit, none for any other character. -/
def digitVal? (c : Char) : Option ℕ :=
  if c.isDigit then some (c.toNat - 48) else none

/-- Value of an all-digit string, accumulated left to right. -/
def digitsValAux : List Char → ℕ → Option ℕ
  | [], acc => some acc
  | c :: cs, acc =>
    match digitVal? c with
    | some d => digitsValAux cs (10 * acc + d)
    | none => none

/-- Unsigned part of float(): digits with at most one decimal point and
at least one digit overall. -/
def pyFloatMag (l : List Char) : Option ℚ :=
  match splitOnChar '.' l with
  | [a] =>
    if a.isEmpty then none else (digitsValAux a 0).map (fun n => (n : ℚ))
  | [a, b] =>
    if a.isEmpty && b.isEmpty then none
    else
      match digitsValAux a 0, digitsValAux b 0 with
      | some n, some m => some ((n : ℚ) + (m : ℚ) / (10 : ℚ) ^ b.length)
      | _, _ => none
  | _ => none

/-- Model of Python float() on a split token, as an exact rational;
none models ValueError. -/
def pyFloatChars? : List Char → Option ℚ
  | '-' :: rest => (pyFloatMag rest).map (fun q => -q)
  | '+' :: rest => pyFloatMag rest
  | l => pyFloatMag l

/-- Model of Python int() on a split token; none models ValueError. -/
def pyIntChars? : List Char → Option ℤ
  | '-' :: rest =>
    if rest.isEmpty then none else (digitsValAux rest 0).map (fun n => -(n : ℤ))
  | '+' :: rest =>
    if rest.isEmpty then none else (digitsValAux rest 0).map (fun n => (n : ℤ))
  | l =>
    if l.isEmpty then none else (digitsValAux l 0).map (fun n => (n : ℤ))

/-- Three leading tokens parsed as floats; none if fewer than three
tokens or any float() raises.  Shared shape of the vertex/normal/point
parses (parts[0..2] with a len >= 3 guard). -/
def threeFloats? : List (List Char) → Option (ℚ × ℚ × ℚ)
  | a :: b :: c :: _ =>
    match pyFloatChars? a, pyFloatChars? b, pyFloatChars? c with
    | some x, some y, some z => some (x, y, z)
    | _, _, _ => none
  | _ => none

/- ---------------------------------------------------------------------
   Geometry data and the two OBJ parsers.
   --------------------------------------------------------------------- -/

/-- The four accumulator lists of the OBJ parsers (vertices, flattened
face index list, uvs, normals). -/
structure GeometryData where
  vertices : List (ℚ × ℚ × ℚ)
  faces : List ℤ
  uvs : List (ℚ × ℚ)
  normals : List (ℚ × ℚ × ℚ)
deriving DecidableEq, Repr

/-- Empty initial accumulators of the OBJ parsers. -/
def initGeo : GeometryData := ⟨[], [], [], []⟩

/-- Model of one face token: part.split('/') then int(indices[0]) - 1,
from both _parse_obj_file variants. -/
def parseFaceTok (tok : List Char) : Option ℤ :=
  match splitOnChar '/' tok with
  | first :: _ => (pyIntChars? first).map (fun n => n - 1)
  | [] => none

/-- All face tokens parsed, none as soon as one int() raises (the
exception aborts the whole line loop). -/
def faceIndices (toks : List (List Char)) : Option (List ℤ) :=
  toks.mapM parseFaceTok

/-- Branch dispatch of one MeshUSDManager._parse_obj_file loop
iteration, on the already stripped line.  some st' is normal
continuation; none models an exception escaping to the try/except
around the whole loop. -/
def meshObjLineCore (st : GeometryData) (line : List Char) : Option GeometryData :=
  if startsWithChars line ['v', ' '] then
    match (pyWords line).drop 1 |>.take 3 with
    | [a, b, c] =>
      (match pyFloatChars? a, pyFloatChars? b, pyFloatChars? c with
       | some x, some y, some z =>
         some { st with vertices := st.vertices ++ [(x, y, z)] }
       | _, _, _ => none)
    | _ => some st
  else if startsWithChars line ['v', 't', ' '] then
    match (pyWords line).drop 1 |>.take 2 with
    | [a, b] =>
      (match pyFloatChars? a, pyFloatChars? b with
       | some u, some v => some { st with uvs := st.uvs ++ [(u, 1 - v)] }
       | _, _ => none)
    | _ => some st
  else if startsWithChars line ['v', 'n', ' '] then
    match (pyWords line).drop 1 |>.take 3 with
    | [a, b, c] =>
      (match pyFloatChars? a, pyFloatChars? b, pyFloatChars? c with
       | some x, some y, some z =>
         some { st with normals := st.normals ++ [(x, y, z)] }
       | _, _, _ => none)
    | _ => some st
  else if startsWithChars line ['f', ' '] then
    match faceIndices ((pyWords line).drop 1) with
    | none => none
    | some fi =>
      match fi with
      | [i0, i1, i2] => some { st with faces := st.faces ++ [i0, i1, i2] }
      | [i0, i1, i2, i3] =>
        some { st with faces := st.faces ++ [i0, i1, i2] ++ [i0, i2, i3] }
      | _ => some st
  else some st

/-- One loop iteration of MeshUSDManager._parse_obj_file: strip the
raw line, then dispatch. -/
def meshObjLine (st : GeometryData) (rawLine : String) : Option GeometryData :=
  meshObjLineCore st (stripChars rawLine.data)

/-- The line loop of MeshUSDManager._parse_obj_file together with the
surrounding try/except: the Bool records whether the loop ran to
completion (false models a caught exception). -/
def meshObjRun (st : GeometryData) : List String → GeometryData × Bool
  | [] => (st, true)
  | l :: ls =>
    match meshObjLine st l with
    | some st' => meshObjRun st' ls
    | none => (st, false)

/-- MeshUSDManager._parse_obj_file: always returns the accumulated data,
also when an exception cut the loop short. -/
def parseObjFileMesh (lines : List String) : GeometryData :=
  (meshObjRun initGeo lines).1

/-- Branch dispatch of one PolycamProcessor._parse_obj_file loop
iteration (roworks.data.import), on the already stripped line.  This
variant has no length guards (a short vertex line raises IndexError),
no uv flip, and appends face indices without any triangulation. -/
def polyObjLineCore (st : GeometryData) (line : List Char) : Option GeometryData :=
  if startsWithChars line ['v', ' '] then
    match (pyWords line).drop 1 |>.take 3 with
    | [a, b, c] =>
      (match pyFloatChars? a, pyFloatChars? b, pyFloatChars? c with
       | some x, some y, some z =>
         some { st with vertices := st.vertices ++ [(x, y, z)] }
       | _, _, _ => none)
    | _ => none
  else if startsWithChars line ['v', 't', ' '] then
    match (pyWords line).drop 1 |>.take 2 with
    | [a, b] =>
      (match pyFloatChars? a, pyFloatChars? b with
       | some u, some v => some { st with uvs := st.uvs ++ [(u, v)] }
       | _, _ => none)
    | _ => none
  else if startsWithChars line ['v', 'n', ' '] then
    match (pyWords line).drop 1 |>.take 3 with
    | [a, b, c] =>
      (match pyFloatChars? a, pyFloatChars? b, pyFloatChars? c with
       | some x, some y, some z =>
         some { st with normals := st.normals ++ [(x, y, z)] }
       | _, _, _ => none)
    | _ => none
  else if startsWithChars line ['f', ' '] then
    match faceIndices ((pyWords line).drop 1) with
    | none => none
    | some fi => some { st with faces := st.faces ++ fi }
  else some st

/-- One loop iteration of PolycamProcessor._parse_obj_file: strip the
raw line, then dispatch. -/
def polyObjLine (st : GeometryData) (rawLine : String) : Option GeometryData :=
  polyObjLineCore st (stripChars rawLine.data)

/-- The line loop of PolycamProcessor._parse_obj_file with its
surrounding try/except, like meshObjRun. -/
def polyObjRun (st : GeometryData) : List String → GeometryData × Bool
  | [] => (st, true)
  | l :: ls =>
    match polyObjLine st l with
    | some st' => polyObjRun st' ls
    | none => (st, false)

/-- PolycamProcessor._parse_obj_file. -/
def parseObjFilePoly (lines : List String) : GeometryData :=
  (polyObjRun initGeo lines).1

/-- PolycamProcessor._group_faces: chop the flat index list into
consecutive triples, dropping a trailing remainder of fewer than three. -/
def groupFaces : List ℤ → List (List ℤ)
  | a :: b :: c :: rest => [a, b, c] :: groupFaces rest
  | _ => []

/-- The face corners a stripped line would contribute, extracted from
the shared face branch (startswith('f '), split()[1:], int of the first
'/'-field of each token).  Used only to state theorems about face lines. -/
def faceCornersCore? (line : List Char) : Option (List ℤ) :=
  if startsWithChars line ['f', ' '] then faceIndices ((pyWords line).drop 1)
  else none

/-- The face corners a raw line would contribute after stripping. -/
def lineFaceCorners? (rawLine : String) : Option (List ℤ) :=
  faceCornersCore? (stripChars rawLine.data)

/- ---------------------------------------------------------------------
   The two point-cloud loaders.  Both iterate enumerate(f) and break as
   soon as the 0-based line index exceeds a fixed limit; the limit is a
   parameter here, instantiated with the source constants below.
   --------------------------------------------------------------------- -/

/-- Line limit constant of RoWorksSceneManager._import_xyz_pointcloud. -/
def xyzLineLimit : ℕ := 50000

/-- Line limit constant of PolycamProcessor._import_pointcloud_to_usd. -/
def polyLineLimit : ℕ := 100000

/-- The point a line yields, if any: parts = line.strip().split(), a
len(parts) >= 3 guard, then float() on the first three fields (a
ValueError skips the line).  Shared by both loaders. -/
def xyzPoint? (rawLine : String) : Option (ℚ × ℚ × ℚ) :=
  threeFloats? (pyWords (stripChars rawLine.data))

/-- The loop of RoWorksSceneManager._import_xyz_pointcloud: n is the
enumerate counter; the body first checks (line_num > cap) and breaks. -/
def xyzLoop (cap : ℕ) : ℕ → List String → List (ℚ × ℚ × ℚ)
  | _, [] => []
  | n, l :: ls =>
    if cap < n then []
    else
      match xyzPoint? l with
      | some p => p :: xyzLoop cap (n + 1) ls
      | none => xyzLoop cap (n + 1) ls

/-- Points read by RoWorksSceneManager._import_xyz_pointcloud. -/
def importXyzPoints (cap : ℕ) (lines : List String) : List (ℚ × ℚ × ℚ) :=
  xyzLoop cap 0 lines

/-- The loop of PolycamProcessor._import_pointcloud_to_usd: same break
and point parse, plus colors: with >= 6 fields the three color floats
are parsed (normalized by 255 when any channel exceeds 1.0) — a color
ValueError still keeps the already-appended point; with fewer than 6
fields white is appended. -/
def polyXyzLoop (cap : ℕ) :
    ℕ → List String → List (ℚ × ℚ × ℚ) × List (ℚ × ℚ × ℚ)
  | _, [] => ([], [])
  | n, l :: ls =>
    if cap < n then ([], [])
    else
      let parts := pyWords (stripChars l.data)
      match threeFloats? parts with
      | some p =>
        let tail := polyXyzLoop cap (n + 1) ls
        (match parts.drop 3 with
         | r :: g :: b :: _ =>
           (match pyFloatChars? r, pyFloatChars? g, pyFloatChars? b with
            | some rv, some gv, some bv =>
              let col :=
                if 1 < rv ∨ 1 < gv ∨ 1 < bv then (rv / 255, gv / 255, bv / 255)
                else (rv, gv, bv)
              (p :: tail.1, col :: tail.2)
            | _, _, _ => (p :: tail.1, tail.2))
         | _ => (p :: tail.1, (1, 1, 1) :: tail.2))
      | none => polyXyzLoop cap (n + 1) ls

/-- Points read by PolycamProcessor._import_pointcloud_to_usd. -/
def polyPointcloudPoints (cap : ℕ) (lines : List String) : List (ℚ × ℚ × ℚ) :=
  (polyXyzLoop cap 0 lines).1

/-- Spec-side reading of the point-cloud contract: the valid points of
the input, in order, with no cap.  Stated from the spec's words to
compare with the loader output. -/
def validXyzPoints (lines : List String) : List (ℚ × ℚ × ℚ) :=
  lines.filterMap xyzPoint?

/-- The fixed sample point set of
RoWorksSceneManager._create_pointcloud_placeholder. -/
def samplePoints : List (ℚ × ℚ × ℚ) :=
  [(0, 0, 0), (1, 0, 0), (0, 1, 0), (0, 0, 1),
   (1, 1, 0), (1, 0, 1), (0, 1, 1), (1, 1, 1),
   (1/2, 1/2, 1/2), (-1/2, 1/2, 1/2)]

/-- RoWorksSceneManager.import_pointcloud_file, restricted to its
observable geometry outcome: ext models Path(file_path).suffix.lower().
For '.xyz' the scene object is created only when the parsed point list
is nonempty (otherwise the import returns None); every other extension
gets the fixed placeholder point set. -/
def importPointcloudFile (cap : ℕ) (ext : String) (lines : List String) :
    Option (List (ℚ × ℚ × ℚ)) :=
  if ext = ".xyz" then
    let pts := importXyzPoints cap lines
    if pts.isEmpty then none else some pts
  else some samplePoints

/- ---------------------------------------------------------------------
   Name sanitization (MeshUSDManager._sanitize_name and the identical
   NonBlockingUSDImporter._sanitize_name).
   --------------------------------------------------------------------- -/

/-- A character the regex class [a-zA-Z0-9_] accepts. -/
def isWordChar (c : Char) : Bool := c.isAlpha || c.isDigit || c == '_'

/-- Model of re.sub applied with pattern [^a-zA-Z0-9_] and replacement
'_': every non-word character becomes an underscore. -/
def subChars (l : List Char) : List Char :=
  l.map (fun c => if isWordChar c then c else '_')

/-- Index (from the front) of the last '.' of the reversed list; worker
for the rfind('.') of pathlib's suffix computation. -/
def revDotIdx : List Char → Option ℕ
  | [] => none
  | c :: cs => if c == '.' then some 0 else (revDotIdx cs).map (fun j => j + 1)

/-- Model of str.rfind('.'): index of the last dot, if any. -/
def lastDotIdx (l : List Char) : Option ℕ :=
  (revDotIdx l.reverse).map (fun j => l.length - 1 - j)

/-- Model of PurePosixPath(s).name: last path component after dropping
empty and '.' components (pathlib keeps '..' as an ordinary component). -/
def pathNameChars (l : List Char) : List Char :=
  (((splitOnChar '/' l).filter
      (fun c => !c.isEmpty && !(c == ['.']))).getLast?).getD []

/-- Model of PurePosixPath(s).stem: drop the suffix when the last dot
sits strictly inside the name (0 < i < len - 1). -/
def stemChars (l : List Char) : List Char :=
  let name := pathNameChars l
  match lastDotIdx name with
  | some i => if 0 < i ∧ i < name.length - 1 then name.take i else name
  | none => name

/-- Whether a character list starts with an ASCII digit
(name[0].isdigit() on the sanitizer's post-substitution alphabet);
false on the empty list, mirroring the truthiness guard. -/
def headIsDigit : List Char → Bool
  | c :: _ => c.isDigit
  | [] => false

/-- The digit fixup of the sanitizer: prefix Asset_ when the name is
nonempty and starts with a digit (the Python condition
name and name[0].isdigit()). -/
def fixDigitHead (n : List Char) : List Char :=
  if headIsDigit n = true then "Asset_".data ++ n else n

/-- The empty fixup of the sanitizer (return name or "UnnamedAsset"). -/
def fixEmpty (n : List Char) : List Char :=
  if n.isEmpty then "UnnamedAsset".data else n

/-- The sanitizer body on character lists: stem, substitute non-word
characters, prefix Asset_ when the result starts with a digit, and fall
back to UnnamedAsset when empty. -/
def sanitizeList (l : List Char) : List Char :=
  fixEmpty (fixDigitHead (subChars (stemChars l)))

/-- MeshUSDManager._sanitize_name (identical to
NonBlockingUSDImporter._sanitize_name). -/
def sanitizeName (s : String) : String := ⟨sanitizeList s.data⟩

/-- Whether a string starts with an ASCII digit. -/
def headIsDigitStr (s : String) : Bool := headIsDigit s.data

/- ---------------------------------------------------------------------
   USDAnalyzer.quick_usd_check.  The file system and USD stage are
   abstracted into the observations the function makes of them.
   --------------------------------------------------------------------- -/

/-- Observations quick_usd_check makes of a USD file: existence, byte
size, whether Usd.Stage.Open succeeds, len(list(stage.TraverseAll())),
and the vertex counts of the meshes in traversal order. -/
structure UsdFileInfo where
  fileExists : Bool
  sizeBytes : ℕ
  stageOpens : Bool
  primCountAll : ℕ
  meshVertexCounts : List ℕ
deriving DecidableEq, Repr

/-- The mesh vertex accumulation loop: adds each mesh's count and fails
as soon as the running total exceeds 2,000,000. -/
def vertexLoop : List ℕ → ℕ → Option ℕ
  | [], acc => some acc
  | v :: vs, acc =>
    let acc' := acc + v
    if 2000000 < acc' then none else vertexLoop vs acc'

/-- USDAnalyzer.quick_usd_check: (is_safe, message).  The Python
messages interpolate sizes and counts; the interpolated parts are
abbreviated here since only the fixed prefixes and the Bool matter. -/
def quickUsdCheck (f : UsdFileInfo) : Bool × String :=
  if !f.fileExists then (false, "File does not exist")
  else if (200 : ℚ) < (f.sizeBytes : ℚ) / (1024 * 1024) then
    (false, "Large USD file may cause hanging")
  else if !f.stageOpens then (false, "Cannot open USD stage")
  else if 15000 < f.primCountAll then (false, "High prim count may cause hanging")
  else
    match vertexLoop f.meshVertexCounts 0 with
    | none => (false, "High vertex count may cause hanging")
    | some _ => (true, "File appears safe to import")

/- ---------------------------------------------------------------------
   NonBlockingUSDImporter: scheduling and the sequential queue worker.
   Execution of a task against the USD stage is external, so each task
   carries its prescribed external behavior.
   --------------------------------------------------------------------- -/

/-- Outcome of awaiting _do_reference_import under asyncio.wait_for. -/
inductive RefOutcome
  | ok
  | err (msg : String)
  | timeout
  | exn (msg : String)
deriving DecidableEq, Repr

/-- How one queue iteration behaves: _import_via_reference returns
normally per a RefOutcome, or some later statement of the iteration
(callback, update await) raises. -/
inductive ExecBehavior
  | ref (o : RefOutcome)
  | raises (msg : String)
deriving DecidableEq, Repr

/-- A queued import task with its prescribed external behavior. -/
structure ImportTask where
  assetName : String
  behavior : ExecBehavior
  hasCallback : Bool
deriving DecidableEq, Repr

/-- The failure message _import_via_reference builds for
asyncio.TimeoutError with the 30.0-second default budget. -/
def timeoutMessage : String := "Import timeout after 30.0 seconds"

/-- NonBlockingUSDImporter._import_via_reference: maps the awaited
outcome to the (success, message) pair the queue loop consumes. -/
def importViaReference : RefOutcome → Bool × String
  | .ok => (true, "Reference created successfully")
  | .err m => (false, m)
  | .timeout => (false, timeoutMessage)
  | .exn m => (false, "Import error: " ++ m)

/-- One iteration of _process_import_queue for a popped task: the final
status string written into the task dict, and the (success, message)
arguments a present callback receives. -/
def processTask (t : ImportTask) : String × Bool × String :=
  match t.behavior with
  | .raises m => ("error", false, m)
  | .ref o =>
    let r := importViaReference o
    if r.1 then ("completed", true, "Import successful")
    else ("failed", false, r.2)

/-- Observable actions of the queue worker, in program order. -/
inductive SchedEvent
  | setStatus (taskIdx : ℕ) (status : String)
  | callbackCall (taskIdx : ℕ) (success : Bool) (msg : String)
deriving DecidableEq, Repr

/-- The events one queue iteration emits for the task at index i:
status processing, then the terminal status, then the callback when one
was supplied. -/
def taskEvents (i : ℕ) (t : ImportTask) : List SchedEvent :=
  [.setStatus i "processing", .setStatus i (processTask t).1] ++
    (if t.hasCallback then
      [.callbackCall i (processTask t).2.1 (processTask t).2.2]
    else [])

/-- _process_import_queue: pops tasks front first until the queue is
empty; i indexes tasks by submission order. -/
def processQueueFrom : ℕ → List ImportTask → List SchedEvent
  | _, [] => []
  | i, t :: ts => taskEvents i t ++ processQueueFrom (i + 1) ts

/-- Whole-queue worker trace, tasks indexed from 0 in submission order. -/
def processQueue (ts : List ImportTask) : List SchedEvent :=
  processQueueFrom 0 ts

/-- Status table update for one event (callbacks do not change status). -/
def applyEvent (f : ℕ → String) : SchedEvent → ℕ → String
  | .setStatus i s => fun j => if j = i then s else f j
  | .callbackCall _ _ _ => f

/-- Status table after a list of events. -/
def runEvents : (ℕ → String) → List SchedEvent → ℕ → String
  | f, [] => f
  | f, e :: es => runEvents (applyEvent f e) es

/-- Every submitted task starts in status queued (schedule_import). -/
def initialStatus : ℕ → String := fun _ => "queued"

/-- Status table after an initial segment of the worker trace. -/
def statusAfter (p : List SchedEvent) : ℕ → String :=
  runEvents initialStatus p

/-- The statuses the worker can leave a task in. -/
def isTerminalStatus (s : String) : Bool :=
  s == "completed" || s == "failed" || s == "error"

/-- NonBlockingUSDImporter.schedule_import with a callback supplied:
runs quick_usd_check first; on failure the queue is untouched, the
callback fires synchronously and None is returned (the Bool); on
success the task is appended with status queued. -/
def scheduleImport (f : UsdFileInfo) (assetName : String)
    (queue : List String) :
    List String × Option (Bool × String × String) × Bool :=
  let r := quickUsdCheck f
  if !r.1 then (queue, some (false, assetName, r.2), false)
  else (queue ++ [assetName], none, true)

/- ---------------------------------------------------------------------
   Helper lemmas.
   --------------------------------------------------------------------- -/

/-- The scene-manager point loop reads exactly the lines with index at
most cap; starting at counter n it covers the first cap + 1 - n lines. -/
lemma xyzLoop_eq_valid (cap : ℕ) (lines : List String) :
    ∀ n : ℕ, xyzLoop cap n lines = validXyzPoints (lines.take (cap + 1 - n)) := by
  induction lines with
  | nil => intro n; simp [xyzLoop, validXyzPoints]
  | cons l ls ih =>
    intro n
    by_cases h : cap < n
    · have h0 : cap + 1 - n = 0 := by omega
      simp [xyzLoop, h, h0, validXyzPoints]
    · have h2 : cap + 1 - n = (cap + 1 - (n + 1)) + 1 := by omega
      rw [h2, List.take_succ_cons]
      unfold xyzLoop
      rw [if_neg h]
      cases hp : xyzPoint? l with
      | some p => simp [validXyzPoints, List.filterMap_cons, hp, ih (n + 1)]
      | none => simp [validXyzPoints, List.filterMap_cons, hp, ih (n + 1)]

/-- The Polycam point loop collects the same points as the
scene-manager loop; colors never change the point list. -/
lemma polyXyzLoop_fst (cap : ℕ) (lines : List String) :
    ∀ n : ℕ,
      (polyXyzLoop cap n lines).1 = validXyzPoints (lines.take (cap + 1 - n)) := by
  induction lines with
  | nil => intro n; simp [polyXyzLoop, validXyzPoints]
  | cons l ls ih =>
    intro n
    by_cases h : cap < n
    · have h0 : cap + 1 - n = 0 := by omega
      simp [polyXyzLoop, h, h0, validXyzPoints]
    · have h2 : cap + 1 - n = (cap + 1 - (n + 1)) + 1 := by omega
      rw [h2, List.take_succ_cons]
      unfold polyXyzLoop
      rw [if_neg h]
      have hxp : xyzPoint? l = threeFloats? (pyWords (stripChars l.data)) := rfl
      cases hp : threeFloats? (pyWords (stripChars l.data)) with
      | some p =>
        simp only [hp, validXyzPoints, List.filterMap_cons, hxp]
        split
        · split
          · simp [validXyzPoints, ih (n + 1)]
          · simp [validXyzPoints, ih (n + 1)]
        · simp [validXyzPoints, ih (n + 1)]
      | none =>
        simp [hp, validXyzPoints, List.filterMap_cons, hxp, ih (n + 1)]

/- ---------------------------------------------------------------------
   Claim C1.
   --------------------------------------------------------------------- -/

/-- C1 counterexample: with cap 2, a file of 4 valid point lines yields
3 points, not 2; and with cap 1, a file whose first two lines are
malformed yields no points at all although it has 2 valid lines. -/
theorem pointcloud_cap_counterexample :
    (validXyzPoints ["0 0 0", "0 0 1", "0 0 2", "0 0 3"]).length = 4
    ∧ (importXyzPoints 2 ["0 0 0", "0 0 1", "0 0 2", "0 0 3"]).length = 3
    ∧ (validXyzPoints ["x", "x", "0 0 0", "0 0 1"]).length = 2
    ∧ importXyzPoints 1 ["x", "x", "0 0 0", "0 0 1"] = [] := by
  refine ⟨by decide, by decide, by decide, by decide⟩

/-- C1 amended: both point-cloud loaders return, in input order, the
valid points among the first cap + 1 lines (the break fires only once
the 0-based line index exceeds the cap), so an all-valid input longer
than the window yields cap + 1 points, and malformed lines inside the
window shrink the output below the cap. -/
theorem pointcloud_cap_amended (cap : ℕ) (lines : List String) :
    importXyzPoints cap lines = validXyzPoints (lines.take (cap + 1))
    ∧ polyPointcloudPoints cap lines = validXyzPoints (lines.take (cap + 1)) := by
  constructor
  · have h := xyzLoop_eq_valid cap lines 0
    simpa [importXyzPoints] using h
  · have h := polyXyzLoop_fst cap lines 0
    simpa [polyPointcloudPoints] using h

/- ---------------------------------------------------------------------
   Claim C4.
   --------------------------------------------------------------------- -/

/-- C4 counterexample: an .xyz file from which zero valid points parse
makes import_pointcloud_file fail (None) instead of producing the
fixed fallback point set. -/
theorem pointcloud_fallback_counterexample :
    validXyzPoints ["not a point"] = []
    ∧ importPointcloudFile xyzLineLimit ".xyz" ["not a point"] = none := by
  refine ⟨by decide, by decide⟩

/-- C4 amended: an .xyz input with zero parsed points yields an overall
failure (None); the fixed non-empty placeholder point set is produced
only for point-cloud files whose extension is not .xyz, regardless of
their content. -/
theorem pointcloud_fallback_amended (cap : ℕ) (ext : String)
    (lines : List String) (hpts : importXyzPoints cap lines = [])
    (hext : ext ≠ ".xyz") :
    importPointcloudFile cap ".xyz" lines = none
    ∧ importPointcloudFile cap ext lines = some samplePoints
    ∧ samplePoints ≠ [] := by
  refine ⟨?_, ?_, by decide⟩
  · simp [importPointcloudFile, hpts]
  · simp [importPointcloudFile, hext]

/-- C4 amended witness at a concrete malformed .xyz input and the .ply
extension. -/
theorem pointcloud_fallback_amended_witness :
    importXyzPoints xyzLineLimit ["not a point"] = []
    ∧ (".ply" : String) ≠ ".xyz"
    ∧ (importPointcloudFile xyzLineLimit ".xyz" ["not a point"] = none
        ∧ importPointcloudFile xyzLineLimit ".ply" ["not a point"]
            = some samplePoints
        ∧ samplePoints ≠ []) := by
  refine ⟨by decide, by decide, ?_⟩
  exact pointcloud_fallback_amended xyzLineLimit ".ply" ["not a point"]
    (by decide) (by decide)

/- ---------------------------------------------------------------------
   Claim C6.
   --------------------------------------------------------------------- -/

/-- C6: a task whose artifact fails quick_usd_check is never appended
to the import queue; the failure callback fires synchronously with the
check's message and schedule_import returns None. -/
theorem schedule_reject_sync (f : UsdFileInfo) (assetName : String)
    (queue : List String) (h : (quickUsdCheck f).1 = false) :
    scheduleImport f assetName queue
      = (queue, some (false, assetName, (quickUsdCheck f).2), false) := by
  simp [scheduleImport, h]

/-- C6 witness: a nonexistent file is rejected synchronously and the
queue is untouched. -/
theorem schedule_reject_sync_witness :
    (quickUsdCheck ⟨false, 0, true, 0, []⟩).1 = false
    ∧ scheduleImport ⟨false, 0, true, 0, []⟩ "BadAsset" []
        = ([], some (false, "BadAsset", "File does not exist"), false) := by
  refine ⟨by decide, ?_⟩
  have h := schedule_reject_sync ⟨false, 0, true, 0, []⟩ "BadAsset" [] (by decide)
  exact h.trans (by decide)

/- ---------------------------------------------------------------------
   Claim C10.
   --------------------------------------------------------------------- -/

/-- The float size test of quick_usd_check compares exactly against
200 MiB in bytes. -/
lemma size_cond (s : ℕ) :
    ((200 : ℚ) < (s : ℚ) / (1024 * 1024)) ↔ 200 * 1024 * 1024 < s := by
  rw [lt_div_iff₀ (by norm_num : (0 : ℚ) < 1024 * 1024)]
  constructor
  · intro h
    by_contra hc
    push_neg at hc
    have : (s : ℚ) ≤ ((200 * 1024 * 1024 : ℕ) : ℚ) := by exact_mod_cast hc
    have h200 : ((200 * 1024 * 1024 : ℕ) : ℚ) = 200 * (1024 * 1024) := by
      push_cast; ring
    rw [h200] at this
    exact absurd (lt_of_lt_of_le h this) (lt_irrefl _)
  · intro h
    have : ((200 * 1024 * 1024 : ℕ) : ℚ) < (s : ℚ) := by exact_mod_cast h
    have h200 : ((200 * 1024 * 1024 : ℕ) : ℚ) = 200 * (1024 * 1024) := by
      push_cast; ring
    rw [h200] at this
    exact this

/-- The vertex accumulation loop succeeds exactly when the total mesh
vertex count stays within the 2,000,000 ceiling. -/
lemma vertexLoop_isSome (l : List ℕ) :
    ∀ acc : ℕ, acc ≤ 2000000 →
      ((vertexLoop l acc).isSome = true ↔ acc + l.sum ≤ 2000000) := by
  induction l with
  | nil =>
    intro acc hacc
    simp [vertexLoop]
    omega
  | cons v vs ih =>
    intro acc hacc
    unfold vertexLoop
    by_cases h : 2000000 < acc + v
    · rw [if_pos h]
      simp only [Option.isSome_none, List.sum_cons]
      constructor
      · intro hf; exact absurd hf (by decide)
      · intro hs; omega
    · rw [if_neg h]
      rw [ih (acc + v) (by omega)]
      simp only [List.sum_cons]
      omega

/-- C10: quick_usd_check accepts exactly when the file exists, its byte
size is at most 200 MiB, the stage opens, the prim count is at most
15000, and the accumulated mesh vertex count is at most 2,000,000. -/
theorem quick_usd_check_iff (f : UsdFileInfo) :
    (quickUsdCheck f).1 = true ↔
      (f.fileExists = true ∧ f.sizeBytes ≤ 200 * 1024 * 1024
        ∧ f.stageOpens = true ∧ f.primCountAll ≤ 15000
        ∧ f.meshVertexCounts.sum ≤ 2000000) := by
  obtain ⟨ex, sz, so, pc, mv⟩ := f
  simp only [quickUsdCheck]
  cases ex with
  | false => simp
  | true =>
    rw [if_neg (by simp)]
    by_cases h2 : (200 : ℚ) < (sz : ℚ) / (1024 * 1024)
    · rw [if_pos h2]
      rw [size_cond] at h2
      simp only [Bool.false_eq_true, false_iff, not_and]
      intro _ hle
      exact absurd hle (by omega)
    · rw [if_neg h2]
      rw [size_cond] at h2
      push_neg at h2
      cases so with
      | false => simp
      | true =>
        rw [if_neg (by simp)]
        by_cases h4 : 15000 < pc
        · rw [if_pos h4]
          simp only [Bool.false_eq_true, false_iff, not_and]
          intro _ _ _ hle
          exact absurd hle (by omega)
        · rw [if_neg h4]
          push_neg at h4
          have hv := vertexLoop_isSome mv 0 (by omega)
          cases hvl : vertexLoop mv 0 with
          | none =>
            rw [hvl] at hv
            simp only [Option.isSome_none, Bool.false_eq_true, false_iff] at hv ⊢
            intro hc
            exact hv (by omega)
          | some total =>
            rw [hvl] at hv
            simp only [Option.isSome_some, true_iff] at hv
            simp only [true_iff]
            exact ⟨by simp, by omega, by simp, h4, by omega⟩

/- ---------------------------------------------------------------------
   Claim C5.
   --------------------------------------------------------------------- -/

/-- The worker trace splits along queue concatenation, with the index
shifted by the length of the first part. -/
lemma processQueueFrom_append (xs ys : List ImportTask) :
    ∀ k : ℕ, processQueueFrom k (xs ++ ys)
      = processQueueFrom k xs ++ processQueueFrom (k + xs.length) ys := by
  induction xs with
  | nil => intro k; simp [processQueueFrom]
  | cons t ts ih =>
    intro k
    show taskEvents k t ++ processQueueFrom (k + 1) (ts ++ ys)
        = (taskEvents k t ++ processQueueFrom (k + 1) ts)
          ++ processQueueFrom (k + (ts.length + 1)) ys
    rw [ih (k + 1), List.append_assoc]
    have hlen : k + (ts.length + 1) = (k + 1) + ts.length := by omega
    rw [hlen]

/-- C5 counterexample: a task whose execution hits the timeout is
marked failed, never timeout; the whole trace of a one-task queue is
computed and contains no timeout status transition. -/
theorem timeout_status_counterexample :
    processQueue [⟨"Asset1", .ref .timeout, true⟩]
      = [SchedEvent.setStatus 0 "processing", SchedEvent.setStatus 0 "failed",
         SchedEvent.callbackCall 0 false "Import timeout after 30.0 seconds"]
    ∧ ∀ e ∈ processQueue [⟨"Asset1", .ref .timeout, true⟩],
        e ≠ SchedEvent.setStatus 0 "timeout" := by
  refine ⟨by decide, by decide⟩

/-- C5 amended: a task that exceeds the timeout budget transitions to
status failed (the code never writes a timeout status), its failure
callback receives the timeout-specific message, and the worker then
continues with every subsequent queued task. -/
theorem timeout_status_amended (pre post : List ImportTask) (name : String) :
    processQueue (pre ++ ⟨name, .ref .timeout, true⟩ :: post)
      = processQueue pre
        ++ [SchedEvent.setStatus pre.length "processing",
            SchedEvent.setStatus pre.length "failed",
            SchedEvent.callbackCall pre.length false timeoutMessage]
        ++ processQueueFrom (pre.length + 1) post := by
  unfold processQueue
  have hsplit : pre ++ (⟨name, .ref .timeout, true⟩ : ImportTask) :: post
      = (pre ++ [⟨name, .ref .timeout, true⟩]) ++ post := by simp
  rw [hsplit, processQueueFrom_append, processQueueFrom_append]
  simp [processQueueFrom, taskEvents, processTask, importViaReference]

/- ---------------------------------------------------------------------
   Claim C2.
   --------------------------------------------------------------------- -/

/-- Running the mesh OBJ loop over a concatenation: when the first part
completes without an exception, the run continues into the second part
from the accumulated state. -/
lemma meshObjRun_append (xs : List String) :
    ∀ (st : GeometryData) (ys : List String), (meshObjRun st xs).2 = true →
      meshObjRun st (xs ++ ys) = meshObjRun (meshObjRun st xs).1 ys := by
  induction xs with
  | nil => intro st ys _; simp [meshObjRun]
  | cons l ls ih =>
    intro st ys h
    cases hl : meshObjLine st l with
    | some st' =>
      have h' : (meshObjRun st' ls).2 = true := by
        simpa [meshObjRun, hl] using h
      calc meshObjRun st ((l :: ls) ++ ys)
          = meshObjRun st' (ls ++ ys) := by simp [meshObjRun, hl]
        _ = meshObjRun (meshObjRun st' ls).1 ys := ih st' ys h'
        _ = meshObjRun (meshObjRun st (l :: ls)).1 ys := by
            simp [meshObjRun, hl]
    | none =>
      exfalso
      simp [meshObjRun, hl] at h

/-- C2 counterexample: the parse does not continue past a line with a
malformed numeric token; the third line's vertex is lost, so the parser
returns one vertex where the claim demands two. -/
theorem obj_malformed_counterexample :
    (parseObjFileMesh ["v 1 2 3", "v x y z", "v 4 5 6"]).vertices = [(1, 2, 3)]
    ∧ (parseObjFileMesh ["v 1 2 3", "v x y z", "v 4 5 6"]).vertices
        ≠ [(1, 2, 3), (4, 5, 6)] := by
  refine ⟨by decide, by decide⟩

/-- C2 amended: a malformed numeric token terminates the parse at that
line.  The parser never raises: it returns exactly the data accumulated
over the preceding lines, so previously parsed vertices are retained
with unchanged indices, but every line after the malformed one is
discarded. -/
theorem obj_malformed_amended (pre : List String) (bad : String)
    (post : List String) (h1 : (meshObjRun initGeo pre).2 = true)
    (h2 : meshObjLine (meshObjRun initGeo pre).1 bad = none) :
    parseObjFileMesh (pre ++ bad :: post) = (meshObjRun initGeo pre).1 := by
  unfold parseObjFileMesh
  rw [meshObjRun_append pre initGeo (bad :: post) h1]
  simp [meshObjRun, h2]

/-- C2 amended witness: one good vertex line, one malformed line, one
trailing good line. -/
theorem obj_malformed_amended_witness :
    (meshObjRun initGeo ["v 1 2 3"]).2 = true
    ∧ meshObjLine (meshObjRun initGeo ["v 1 2 3"]).1 "v x y z" = none
    ∧ parseObjFileMesh (["v 1 2 3"] ++ "v x y z" :: ["v 4 5 6"])
        = (meshObjRun initGeo ["v 1 2 3"]).1 := by
  refine ⟨by decide, by decide,
    obj_malformed_amended ["v 1 2 3"] "v x y z" ["v 4 5 6"]
      (by decide) (by decide)⟩

/- ---------------------------------------------------------------------
   Claims C3 and C9.
   --------------------------------------------------------------------- -/

/-- An empty pattern always matches. -/
lemma startsWithChars_nil (l : List Char) : startsWithChars l [] = true := by
  cases l <;> rfl

/-- A two-character startswith match exposes the first two characters. -/
lemma startsWithChars_two (l : List Char) (p q : Char)
    (h : startsWithChars l [p, q] = true) : ∃ t, l = p :: q :: t := by
  match l with
  | [] => simp [startsWithChars] at h
  | [c] => simp [startsWithChars] at h
  | c :: d :: t =>
    refine ⟨t, ?_⟩
    simp only [startsWithChars, Bool.and_eq_true, beq_iff_eq] at h
    rw [h.1, h.2.1]

/-- C3 counterexample: the Polycam OBJ parser emits a quad face's four
corner indices verbatim, not two triangles; the later triple grouping
then silently drops the fourth corner. -/
theorem quad_triangulation_counterexample :
    (parseObjFilePoly
        ["v 0 0 0", "v 1 0 0", "v 1 1 0", "v 0 1 0", "f 1 2 3 4"]).faces
      = [0, 1, 2, 3]
    ∧ (parseObjFilePoly
        ["v 0 0 0", "v 1 0 0", "v 1 1 0", "v 0 1 0", "f 1 2 3 4"]).faces
        ≠ [0, 1, 2, 0, 2, 3]
    ∧ groupFaces (parseObjFilePoly
        ["v 0 0 0", "v 1 0 0", "v 1 1 0", "v 0 1 0", "f 1 2 3 4"]).faces
      = [[0, 1, 2]] := by
  refine ⟨by decide, by decide, by decide⟩

/-- C3 amended: only the service.api parser splits a 4-corner face into
the triangles (0,1,2) and (0,2,3); the data.import Polycam parser
appends the four corner indices without triangulation. -/
theorem quad_triangulation_amended (st1 st2 : GeometryData) (line : String)
    (i0 i1 i2 i3 : ℤ) (h : lineFaceCorners? line = some [i0, i1, i2, i3]) :
    meshObjLine st1 line
        = some { st1 with faces := st1.faces ++ [i0, i1, i2] ++ [i0, i2, i3] }
    ∧ polyObjLine st2 line
        = some { st2 with faces := st2.faces ++ [i0, i1, i2, i3] } := by
  unfold lineFaceCorners? faceCornersCore? at h
  unfold meshObjLine polyObjLine
  by_cases hs : startsWithChars (stripChars line.data) ['f', ' '] = true
  case neg =>
    rw [if_neg hs] at h
    exact absurd h (by simp)
  case pos =>
    rw [if_pos hs] at h
    obtain ⟨t, ht⟩ := startsWithChars_two _ 'f' ' ' hs
    rw [ht] at h ⊢
    have hv : startsWithChars ('f' :: ' ' :: t) ['v', ' '] = false := rfl
    have hvt : startsWithChars ('f' :: ' ' :: t) ['v', 't', ' '] = false := rfl
    have hvn : startsWithChars ('f' :: ' ' :: t) ['v', 'n', ' '] = false := rfl
    have hf : startsWithChars ('f' :: ' ' :: t) ['f', ' '] = true := by
      simp [startsWithChars, startsWithChars_nil]
    constructor
    · unfold meshObjLineCore
      rw [if_neg (by simp [hv]), if_neg (by simp [hvt]),
        if_neg (by simp [hvn]), if_pos hf, h]
    · unfold polyObjLineCore
      rw [if_neg (by simp [hv]), if_neg (by simp [hvt]),
        if_neg (by simp [hvn]), if_pos hf, h]

/-- C3 amended witness: the quad face line f 1 2 3 4. -/
theorem quad_triangulation_amended_witness :
    lineFaceCorners? "f 1 2 3 4" = some [0, 1, 2, 3]
    ∧ (meshObjLine initGeo "f 1 2 3 4"
        = some { initGeo with
            faces := initGeo.faces ++ [0, 1, 2] ++ [0, 2, 3] }
      ∧ polyObjLine initGeo "f 1 2 3 4"
        = some { initGeo with faces := initGeo.faces ++ [0, 1, 2, 3] }) := by
  refine ⟨by decide,
    quad_triangulation_amended initGeo initGeo "f 1 2 3 4" 0 1 2 3 (by decide)⟩

/-- C9 counterexample: a 5-corner face is silently dropped by the
service.api parser (no triangles, no error: the run completes) and
appended un-triangulated by the data.import parser. -/
theorem ngon_policy_counterexample :
    (parseObjFileMesh ["v 0 0 0", "v 1 0 0", "v 2 0 0", "v 3 0 0", "v 4 0 0",
        "f 1 2 3 4 5"]).faces = []
    ∧ (meshObjRun initGeo ["v 0 0 0", "v 1 0 0", "v 2 0 0", "v 3 0 0",
        "v 4 0 0", "f 1 2 3 4 5"]).2 = true
    ∧ (parseObjFilePoly ["f 1 2 3 4 5"]).faces = [0, 1, 2, 3, 4] := by
  refine ⟨by decide, by decide, by decide⟩

/-- C9 amended: a face record with five or more corners whose indices
all parse is silently ignored by the service.api parser (state
unchanged, no error) and appended without triangulation by the
data.import parser. -/
theorem ngon_policy_amended (st1 st2 : GeometryData) (line : String)
    (corners : List ℤ) (h : lineFaceCorners? line = some corners)
    (hlen : 5 ≤ corners.length) :
    meshObjLine st1 line = some st1
    ∧ polyObjLine st2 line = some { st2 with faces := st2.faces ++ corners } := by
  unfold lineFaceCorners? faceCornersCore? at h
  unfold meshObjLine polyObjLine
  by_cases hs : startsWithChars (stripChars line.data) ['f', ' '] = true
  case neg =>
    rw [if_neg hs] at h
    exact absurd h (by simp)
  case pos =>
    rw [if_pos hs] at h
    obtain ⟨t, ht⟩ := startsWithChars_two _ 'f' ' ' hs
    rw [ht] at h ⊢
    have hv : startsWithChars ('f' :: ' ' :: t) ['v', ' '] = false := rfl
    have hvt : startsWithChars ('f' :: ' ' :: t) ['v', 't', ' '] = false := rfl
    have hvn : startsWithChars ('f' :: ' ' :: t) ['v', 'n', ' '] = false := rfl
    have hf : startsWithChars ('f' :: ' ' :: t) ['f', ' '] = true := by
      simp [startsWithChars, startsWithChars_nil]
    constructor
    · unfold meshObjLineCore
      rw [if_neg (by simp [hv]), if_neg (by simp [hvt]),
        if_neg (by simp [hvn]), if_pos hf, h]
      rcases corners with _ | ⟨c0, _ | ⟨c1, _ | ⟨c2, _ | ⟨c3, _ | ⟨c4, tl⟩⟩⟩⟩⟩
      · exact absurd hlen (by simp)
      · exact absurd hlen (by simp)
      · exact absurd hlen (by simp)
      · exact absurd hlen (by simp)
      · exact absurd hlen (by simp)
      · rfl
    · unfold polyObjLineCore
      rw [if_neg (by simp [hv]), if_neg (by simp [hvt]),
        if_neg (by simp [hvn]), if_pos hf, h]

/-- C9 amended witness: the pentagon face line f 1 2 3 4 5. -/
theorem ngon_policy_amended_witness :
    lineFaceCorners? "f 1 2 3 4 5" = some [0, 1, 2, 3, 4]
    ∧ 5 ≤ ([0, 1, 2, 3, 4] : List ℤ).length
    ∧ (meshObjLine initGeo "f 1 2 3 4 5" = some initGeo
      ∧ polyObjLine initGeo "f 1 2 3 4 5"
          = some { initGeo with faces := initGeo.faces ++ [0, 1, 2, 3, 4] }) := by
  refine ⟨by decide, by decide,
    ngon_policy_amended initGeo initGeo "f 1 2 3 4 5" [0, 1, 2, 3, 4]
      (by decide) (by decide)⟩

/- ---------------------------------------------------------------------
   Claim C8.
   --------------------------------------------------------------------- -/

/-- Two characters that are respectively inside and outside the word
class are distinct under boolean equality. -/
lemma word_beq_false {c x : Char} (hc : isWordChar c = true)
    (hx : isWordChar x = false) : (c == x) = false := by
  cases hb : (c == x) with
  | false => rfl
  | true =>
    exfalso
    have hcx : c = x := by simpa using hb
    rw [hcx, hx] at hc
    exact Bool.false_ne_true hc

/-- Splitting on an absent separator returns the single whole field. -/
lemma splitOnCharAux_no_sep (sep : Char) (l : List Char)
    (h : ∀ c ∈ l, (c == sep) = false) :
    ∀ acc, splitOnCharAux sep l acc = [acc.reverse ++ l] := by
  induction l with
  | nil => intro acc; simp [splitOnCharAux]
  | cons c cs ih =>
    intro acc
    have hc : (c == sep) = false := h c (by simp)
    unfold splitOnCharAux
    rw [if_neg (by simp [hc])]
    rw [ih (fun x hx => h x (by simp [hx])) (c :: acc)]
    simp

/-- splitOnChar on a separator-free list is the identity singleton. -/
lemma splitOnChar_no_sep (sep : Char) (l : List Char)
    (h : ∀ c ∈ l, (c == sep) = false) : splitOnChar sep l = [l] := by
  have := splitOnCharAux_no_sep sep l h []
  simpa [splitOnChar] using this

/-- A dot-free list has no last-dot index. -/
lemma revDotIdx_none (l : List Char) (h : ∀ c ∈ l, (c == '.') = false) :
    revDotIdx l = none := by
  induction l with
  | nil => rfl
  | cons c cs ih =>
    have hc : (c == '.') = false := h c (by simp)
    unfold revDotIdx
    rw [if_neg (by simp [hc])]
    rw [ih (fun x hx => h x (by simp [hx]))]
    rfl

/-- The path-name computation keeps a nonempty all-word-character list
unchanged: it has no slashes and is not the '.' component. -/
lemma pathNameChars_word (l : List Char) (hw : ∀ c ∈ l, isWordChar c = true)
    (hne : l ≠ []) : pathNameChars l = l := by
  have hslash : ∀ c ∈ l, (c == '/') = false := fun c hc =>
    word_beq_false (hw c hc) (by decide)
  have hie : l.isEmpty = false := by
    cases l with
    | nil => exact absurd rfl hne
    | cons a as => rfl
  have hbe : (l == ['.']) = false := by
    cases hb : (l == ['.']) with
    | false => rfl
    | true =>
      exfalso
      have hl : l = ['.'] := by simpa using hb
      have := hw '.' (by simp [hl])
      exact absurd this (by decide)
  simp [pathNameChars, splitOnChar_no_sep '/' l hslash, List.filter, hie, hbe]

/-- The stem computation keeps a nonempty all-word-character list
unchanged: it contains no dot. -/
lemma stemChars_word (l : List Char) (hw : ∀ c ∈ l, isWordChar c = true)
    (hne : l ≠ []) : stemChars l = l := by
  have hdot : ∀ c ∈ l.reverse, (c == '.') = false := by
    intro c hc
    exact word_beq_false (hw c (by simpa using hc)) (by decide)
  unfold stemChars
  rw [pathNameChars_word l hw hne]
  simp [lastDotIdx, revDotIdx_none l.reverse hdot]

/-- Every character the substitution emits is a word character. -/
lemma subChars_word (l : List Char) : ∀ c ∈ subChars l, isWordChar c = true := by
  intro c hc
  simp only [subChars, List.mem_map] at hc
  rcases hc with ⟨a, _, rfl⟩
  by_cases h : isWordChar a = true
  · rw [if_pos h]; exact h
  · rw [if_neg h]; decide

/-- The substitution is the identity on all-word-character lists. -/
lemma subChars_id (l : List Char) (hw : ∀ c ∈ l, isWordChar c = true) :
    subChars l = l := by
  induction l with
  | nil => rfl
  | cons c cs ih =>
    simp only [subChars, List.map_cons] at ih ⊢
    rw [if_pos (hw c (by simp)), ih (fun x hx => hw x (by simp [hx]))]

/-- The empty fixup never returns the empty list. -/
lemma fixEmpty_ne_nil (n : List Char) : fixEmpty n ≠ [] := by
  unfold fixEmpty
  cases n with
  | nil => decide
  | cons c cs => simp

/-- The empty fixup emits only word characters when fed word
characters. -/
lemma fixEmpty_word (n : List Char) (hw : ∀ c ∈ n, isWordChar c = true) :
    ∀ c ∈ fixEmpty n, isWordChar c = true := by
  unfold fixEmpty
  cases n with
  | nil => intro c hc; revert hc; revert c; decide
  | cons a as =>
    simpa using hw

/-- The digit fixup emits only word characters when fed word
characters. -/
lemma fixDigitHead_word (n : List Char) (hw : ∀ c ∈ n, isWordChar c = true) :
    ∀ c ∈ fixDigitHead n, isWordChar c = true := by
  unfold fixDigitHead
  by_cases hd : headIsDigit n = true
  · rw [if_pos hd]
    intro c hc
    rcases List.mem_append.mp hc with hc | hc
    · have hall : ∀ x ∈ "Asset_".data, isWordChar x = true := by decide
      exact hall c hc
    · exact hw c hc
  · rw [if_neg hd]
    exact hw

/-- After both fixups the name cannot start with a digit. -/
lemma fixups_head (n : List Char) :
    headIsDigit (fixEmpty (fixDigitHead n)) = false := by
  unfold fixDigitHead
  by_cases hd : headIsDigit n = true
  · rw [if_pos hd]
    cases n with
    | nil => decide
    | cons c cs => rfl
  · rw [if_neg hd]
    unfold fixEmpty
    cases n with
    | nil => decide
    | cons c cs => simpa [headIsDigit] using hd

/-- The sanitizer never returns the empty list. -/
lemma sanitizeList_ne_nil (l : List Char) : sanitizeList l ≠ [] :=
  fixEmpty_ne_nil _

/-- Every character of the sanitizer's output is a word character. -/
lemma sanitizeList_word (l : List Char) :
    ∀ c ∈ sanitizeList l, isWordChar c = true :=
  fixEmpty_word _ (fixDigitHead_word _ (subChars_word (stemChars l)))

/-- The sanitizer's output never starts with a digit. -/
lemma sanitizeList_head (l : List Char) : headIsDigit (sanitizeList l) = false :=
  fixups_head _

/-- Idempotence of the sanitizer body: its output is nonempty, purely
word characters and does not start with a digit, so stem, substitution
and both fixups leave it unchanged. -/
lemma sanitizeList_idem (l : List Char) :
    sanitizeList (sanitizeList l) = sanitizeList l := by
  have hne := sanitizeList_ne_nil l
  have hw := sanitizeList_word l
  have hh := sanitizeList_head l
  generalize hout : sanitizeList l = out at hne hw hh
  conv_lhs => rw [sanitizeList]
  rw [stemChars_word out hw hne, subChars_id out hw]
  unfold fixDigitHead
  rw [if_neg (by simp [hh])]
  unfold fixEmpty
  cases out with
  | nil => exact absurd rfl hne
  | cons c cs => simp

/-- C8: name sanitization is idempotent, returns a nonempty name, and
never returns a name starting with a digit. -/
theorem sanitize_idempotent_nonempty_nodigit (s : String) :
    sanitizeName (sanitizeName s) = sanitizeName s
    ∧ sanitizeName s ≠ ""
    ∧ headIsDigitStr (sanitizeName s) = false := by
  refine ⟨?_, ?_, ?_⟩
  · show (⟨sanitizeList (sanitizeName s).data⟩ : String) = ⟨sanitizeList s.data⟩
    have hd : (sanitizeName s).data = sanitizeList s.data := rfl
    rw [hd, sanitizeList_idem]
  · intro hcontra
    have h0 : sanitizeList s.data = [] := congrArg String.data hcontra
    exact sanitizeList_ne_nil s.data h0
  · show headIsDigit (sanitizeList s.data) = false
    exact sanitizeList_head s.data

/- ---------------------------------------------------------------------
   Claim C7.
   --------------------------------------------------------------------- -/

/-- Pointwise update of a status table. -/
def upd (f : ℕ → String) (k : ℕ) (s : String) : ℕ → String :=
  fun j => if j = k then s else f j

/-- Invariant of the worker between task blocks: tasks not yet reached
are queued, tasks already finished are terminal. -/
def QInv (k : ℕ) (f : ℕ → String) : Prop :=
  (∀ i, k ≤ i → f i = "queued") ∧ (∀ i, i < k → isTerminalStatus (f i) = true)

/-- The two safety properties of a status table: at most one task is
processing, and a later task has left queued only once every earlier
task is terminal. -/
def GoodTable (g : ℕ → String) : Prop :=
  (∀ i j, i ≠ j → ¬(g i = "processing" ∧ g j = "processing"))
  ∧ ∀ i j, i < j → g j ≠ "queued" → isTerminalStatus (g i) = true

/-- A terminal status is neither processing nor queued. -/
lemma terminal_ne {s : String} (h : isTerminalStatus s = true) :
    s ≠ "processing" ∧ s ≠ "queued" := by
  simp only [isTerminalStatus, Bool.or_eq_true, beq_iff_eq] at h
  rcases h with (h | h) | h <;> subst h <;> exact ⟨by decide, by decide⟩

/-- Under the invariant no task is in the processing status. -/
lemma not_processing_of_inv {k : ℕ} {f : ℕ → String} (h : QInv k f) (x : ℕ) :
    f x ≠ "processing" := by
  obtain ⟨hq, ht⟩ := h
  rcases le_or_lt k x with hk | hk
  · rw [hq x hk]; decide
  · exact (terminal_ne (ht x hk)).1

/-- A table satisfying the between-blocks invariant is safe. -/
lemma good_of_inv {k : ℕ} {f : ℕ → String} (h : QInv k f) : GoodTable f := by
  obtain ⟨hq, ht⟩ := h
  constructor
  · rintro i j hij ⟨hi, -⟩
    exact not_processing_of_inv ⟨hq, ht⟩ i hi
  · intro i j hij hjq
    rcases le_or_lt k j with hk | hk
    · exact absurd (hq j hk) hjq
    · exact ht i (lt_trans hij hk)

/-- Marking the next task processing keeps the table safe. -/
lemma good_of_processing {k : ℕ} {f : ℕ → String} (h : QInv k f) :
    GoodTable (upd f k "processing") := by
  obtain ⟨hq, ht⟩ := h
  constructor
  · rintro i j hij ⟨hi, hj⟩
    by_cases hik : i = k
    · have hjk : j ≠ k := fun hjk2 => hij (by rw [hik, hjk2])
      rw [show upd f k "processing" j = f j from by simp [upd, hjk]] at hj
      exact not_processing_of_inv ⟨hq, ht⟩ j hj
    · rw [show upd f k "processing" i = f i from by simp [upd, hik]] at hi
      exact not_processing_of_inv ⟨hq, ht⟩ i hi
  · intro i j hij hjq
    by_cases hik : i = k
    · have hjk : j ≠ k := by omega
      rw [show upd f k "processing" j = f j from by simp [upd, hjk],
        hq j (by omega)] at hjq
      exact absurd rfl hjq
    · rw [show upd f k "processing" i = f i from by simp [upd, hik]]
      by_cases hjk : j = k
      · exact ht i (by omega)
      · rw [show upd f k "processing" j = f j from by simp [upd, hjk]] at hjq
        rcases le_or_lt k j with hk | hk
        · exact absurd (hq j hk) hjq
        · exact ht i (by omega)

/-- Writing the terminal status of the current task keeps the table
safe. -/
lemma good_of_terminal {k : ℕ} {f : ℕ → String} {st : String} (h : QInv k f)
    (hst : isTerminalStatus st = true) : GoodTable (upd f k st) := by
  obtain ⟨hq, ht⟩ := h
  constructor
  · rintro i j hij ⟨hi, -⟩
    by_cases hik : i = k
    · rw [show upd f k st i = st from by simp [upd, hik]] at hi
      exact (terminal_ne hst).1 hi
    · rw [show upd f k st i = f i from by simp [upd, hik]] at hi
      exact not_processing_of_inv ⟨hq, ht⟩ i hi
  · intro i j hij hjq
    by_cases hik : i = k
    · rw [show upd f k st i = st from by simp [upd, hik]]
      exact hst
    · rw [show upd f k st i = f i from by simp [upd, hik]]
      by_cases hjk : j = k
      · exact ht i (by omega)
      · rw [show upd f k st j = f j from by simp [upd, hjk]] at hjq
        rcases le_or_lt k j with hk | hk
        · exact absurd (hq j hk) hjq
        · exact ht i (by omega)

/-- Finishing the task at index k re-establishes the invariant at
k + 1. -/
lemma inv_step {k : ℕ} {f : ℕ → String} {st : String} (h : QInv k f)
    (hst : isTerminalStatus st = true) : QInv (k + 1) (upd f k st) := by
  obtain ⟨hq, ht⟩ := h
  constructor
  · intro i hi
    have hik : i ≠ k := by omega
    rw [show upd f k st i = f i from by simp [upd, hik]]
    exact hq i (by omega)
  · intro i hi
    by_cases hik : i = k
    · rw [show upd f k st i = st from by simp [upd, hik]]
      exact hst
    · rw [show upd f k st i = f i from by simp [upd, hik]]
      exact ht i (by omega)

/-- Every task the worker pops ends in a terminal status. -/
lemma processTask_terminal (t : ImportTask) :
    isTerminalStatus (processTask t).1 = true := by
  rcases t with ⟨name, behavior, hcb⟩
  cases behavior with
  | raises m => rfl
  | ref o => cases o <;> rfl

/-- runEvents distributes over event-list concatenation. -/
lemma runEvents_append (p : List SchedEvent) :
    ∀ (f : ℕ → String) (q : List SchedEvent),
      runEvents f (p ++ q) = runEvents (runEvents f p) q := by
  induction p with
  | nil => intro f q; rfl
  | cons e es ih => intro f q; simp [runEvents, ih]

/-- A full task block updates exactly the task's own status to its
terminal value. -/
lemma runEvents_taskEvents (f : ℕ → String) (k : ℕ) (t : ImportTask) :
    runEvents f (taskEvents k t) = upd f k (processTask t).1 := by
  unfold taskEvents
  by_cases hcb : t.hasCallback = true
  · rw [if_pos hcb]
    funext j
    by_cases hjk : j = k <;> simp [runEvents, applyEvent, upd, hjk]
  · rw [if_neg hcb]
    funext j
    by_cases hjk : j = k <;> simp [runEvents, applyEvent, upd, hjk]

/-- Every initial segment of the worker trace yields a safe status
table, given the between-blocks invariant at the start. -/
lemma prefix_good (ts : List ImportTask) :
    ∀ (k : ℕ) (f : ℕ → String), QInv k f →
      ∀ p q, p ++ q = processQueueFrom k ts → GoodTable (runEvents f p) := by
  induction ts with
  | nil =>
    intro k f hInv p q hpq
    have hp : p = [] := by
      simp only [processQueueFrom] at hpq
      exact (List.append_eq_nil.mp hpq).1
    subst hp
    exact good_of_inv hInv
  | cons t rest ih =>
    intro k f hInv p q hpq
    rw [show processQueueFrom k (t :: rest)
        = taskEvents k t ++ processQueueFrom (k + 1) rest from rfl] at hpq
    rcases List.append_eq_append_iff.mp hpq with ⟨a', ha1, _⟩ | ⟨c', hc1, hc2⟩
    · have hte : taskEvents k t
          = SchedEvent.setStatus k "processing"
            :: SchedEvent.setStatus k (processTask t).1
            :: (if t.hasCallback then
                  [SchedEvent.callbackCall k (processTask t).2.1
                    (processTask t).2.2]
                else []) := rfl
      rw [hte] at ha1
      cases p with
      | nil => exact good_of_inv hInv
      | cons x p2 =>
        rw [List.cons_append] at ha1
        injection ha1 with hx ha1
        subst hx
        cases p2 with
        | nil =>
          have hrw : runEvents f [SchedEvent.setStatus k "processing"]
              = upd f k "processing" := rfl
          rw [hrw]
          exact good_of_processing hInv
        | cons y p3 =>
          rw [List.cons_append] at ha1
          injection ha1 with hy ha1
          subst hy
          cases p3 with
          | nil =>
            have hrw : runEvents f [SchedEvent.setStatus k "processing",
                SchedEvent.setStatus k (processTask t).1]
                = upd f k (processTask t).1 := by
              funext j
              by_cases hjk : j = k <;> simp [runEvents, applyEvent, upd, hjk]
            rw [hrw]
            exact good_of_terminal hInv (processTask_terminal t)
          | cons z p4 =>
            by_cases hcb : t.hasCallback = true
            case neg =>
              rw [if_neg hcb] at ha1
              exact absurd ha1 (by simp)
            case pos =>
              rw [if_pos hcb] at ha1
              rw [List.cons_append] at ha1
              injection ha1 with hz ha1
              subst hz
              have hp4 : p4 = [] := (List.append_eq_nil.mp ha1.symm).1
              subst hp4
              have hrw : runEvents f [SchedEvent.setStatus k "processing",
                  SchedEvent.setStatus k (processTask t).1,
                  SchedEvent.callbackCall k (processTask t).2.1
                    (processTask t).2.2]
                  = upd f k (processTask t).1 := by
                funext j
                by_cases hjk : j = k <;> simp [runEvents, applyEvent, upd, hjk]
              rw [hrw]
              exact good_of_terminal hInv (processTask_terminal t)
    · subst hc1
      rw [runEvents_append, runEvents_taskEvents]
      exact ih (k + 1) (upd f k (processTask t).1)
        (inv_step hInv (processTask_terminal t)) c' q hc2.symm

/-- C7: along any initial segment of the worker trace, at most one task
is in the processing status, and a later-submitted task has left the
queued status only when every earlier task has reached a terminal
status. -/
theorem import_queue_single_flight_fifo (ts : List ImportTask)
    (p q : List SchedEvent) (h : p ++ q = processQueue ts) :
    (∀ i j, i ≠ j →
      ¬(statusAfter p i = "processing" ∧ statusAfter p j = "processing"))
    ∧ ∀ i j, i < j → statusAfter p j ≠ "queued" →
        isTerminalStatus (statusAfter p i) = true := by
  have hInv : QInv 0 initialStatus :=
    ⟨fun i _ => rfl, fun i hi => absurd hi (by omega)⟩
  exact prefix_good ts 0 initialStatus hInv p q h

/-- C7 witness: a two-task queue, observed right after the first task
starts processing. -/
theorem import_queue_single_flight_fifo_witness :
    ¬(statusAfter [SchedEvent.setStatus 0 "processing"] 0 = "processing"
      ∧ statusAfter [SchedEvent.setStatus 0 "processing"] 1 = "processing") := by
  have h := import_queue_single_flight_fifo
    [⟨"T1", .ref .ok, false⟩, ⟨"T2", .ref .ok, false⟩]
    [SchedEvent.setStatus 0 "processing"]
    [SchedEvent.setStatus 0 "completed", SchedEvent.setStatus 1 "processing",
      SchedEvent.setStatus 1 "completed"]
    (by decide)
  exact h.1 0 1 (by omega)

end RoWorks
